import Mathlib

/-!
Shallow embedding of the transfer module (src/source/transfer.c) of the
hi_class / CLASS cosmology code, together with theorems settling the
specification claims about it.

Machine doubles are modelled by exact rationals (ℚ) where the code is purely
arithmetic, and by ℝ where square roots or π genuinely enter.  C `(int)` casts
are modelled by truncation toward zero.  Fallible constructions return
`Except String`.
-/

namespace HiClassTransfer

/-- C cast `(int)x` for a real-valued expression: truncation toward zero. -/
def cInt (x : ℚ) : ℤ :=
  if 0 ≤ x then ⌊x⌋ else ⌈x⌉

/-! ### Selection window shapes (enum `selection` in perturbations) -/

inductive SelectionShape
  | gaussian
  | tophat
  | dirac
deriving DecidableEq

/-! ### transfer_use_limber (transfer.c:3068-3108)

Context record collecting the fields of `precision`, `perturbs` and
`transfers` read by `transfer_use_limber`.  `selection_mean` is the array
`ppt->selection_mean`.
-/

structure LimberCtx where
  has_cl_cmb_lensing_potential : Bool
  has_cl_density : Bool
  has_cl_lensing_potential : Bool
  selection : SelectionShape
  selection_num : ℕ
  selection_mean : ℕ → ℚ
  index_tt_lcmb : ℕ
  index_tt_density : ℕ
  index_tt_lensing : ℕ
  l_switch_limber : ℚ
  l_switch_limber_for_cl_density_over_z : ℚ

/-- Embedding of `transfer_use_limber` (transfer.c:3068-3108).  `scalars`
stands for the `_scalars_` macro (current mode is the scalar mode).  The
else-if chain of the C code is kept verbatim; in the density branch the
result is true only for a non-Dirac selection (`if (ppt->selection != dirac)
*use_limber = _TRUE_`), and in that case the lensing branch is never
examined. -/
def transfer_use_limber (ctx : LimberCtx) (scalars : Bool) (q_max_bessel : ℚ)
    (index_tt : ℕ) (q l : ℚ) : Bool :=
  if q > q_max_bessel then true
  else if scalars then
    if ctx.has_cl_cmb_lensing_potential ∧ index_tt = ctx.index_tt_lcmb ∧
        l > ctx.l_switch_limber then true
    else if ctx.has_cl_density ∧ ctx.index_tt_density ≤ index_tt ∧
        index_tt < ctx.index_tt_density + ctx.selection_num ∧
        l ≥ ctx.l_switch_limber_for_cl_density_over_z *
          ctx.selection_mean (index_tt - ctx.index_tt_density) then
      decide (ctx.selection ≠ SelectionShape.dirac)
    else if ctx.has_cl_lensing_potential ∧ ctx.index_tt_lensing ≤ index_tt ∧
        index_tt < ctx.index_tt_lensing + ctx.selection_num ∧
        l ≥ ctx.l_switch_limber_for_cl_density_over_z *
          ctx.selection_mean (index_tt - ctx.index_tt_lensing) then true
    else false
  else false

/-- Concrete context exhibiting the Dirac/galaxy-lensing behaviour: one
redshift bin, galaxy lensing requested, Dirac selection window. -/
def limberCtxDirac : LimberCtx where
  has_cl_cmb_lensing_potential := false
  has_cl_density := false
  has_cl_lensing_potential := true
  selection := SelectionShape.dirac
  selection_num := 1
  selection_mean := fun _ => 1
  index_tt_lcmb := 0
  index_tt_density := 1
  index_tt_lensing := 2
  l_switch_limber := 10
  l_switch_limber_for_cl_density_over_z := 30

/-! ### transfer_init / transfer_free early paths (transfer.c:173-182, 387-413)

The transfer structure is abstracted to the flags relevant for allocation
bookkeeping: `has_cls` plus one boolean per allocated member, and `md_size`.
-/

structure TransfersAlloc where
  has_cls : Bool
  md_size : ℕ
  tt_size_alloc : Bool
  l_size_tt_alloc : Bool
  l_size_alloc : Bool
  l_alloc : Bool
  q_alloc : Bool
  k_alloc : Bool
  transfer_alloc : Bool

/-- Transfer structure with no grids and no table allocated. -/
def transfersUnallocated (has_cls : Bool) (md_size : ℕ) : TransfersAlloc where
  has_cls := has_cls
  md_size := md_size
  tt_size_alloc := false
  l_size_tt_alloc := false
  l_size_alloc := false
  l_alloc := false
  q_alloc := false
  k_alloc := false
  transfer_alloc := false

/-- Embedding of the guard at the top of `transfer_init`
(transfer.c:175-182): when the perturbation module requests no harmonic
spectra, record `has_cls = _FALSE_` and return `_SUCCESS_` (modelled as
`true`) immediately, allocating nothing; otherwise record `has_cls = _TRUE_`
and continue with the rest of the initialization, abstracted as `rest`. -/
def transfer_init_model (ppt_has_cls : Bool) (md_size : ℕ)
    (rest : TransfersAlloc → TransfersAlloc × Bool) : TransfersAlloc × Bool :=
  if ppt_has_cls = false then (transfersUnallocated false md_size, true)
  else rest (transfersUnallocated true md_size)

/-- Embedding of `transfer_free` (transfer.c:387-413).  Returns the structure
after freeing, the number of `free()` calls performed, and the success flag.
When `has_cls` is true it frees `l_size_tt[i]`, `transfer[i]`, `k[i]` for each
of the `md_size` modes plus the seven top-level arrays; otherwise it frees
nothing. -/
def transfer_free_model (tr : TransfersAlloc) : TransfersAlloc × ℕ × Bool :=
  if tr.has_cls = true then
    (transfersUnallocated tr.has_cls tr.md_size, 3 * tr.md_size + 7, true)
  else (tr, 0, true)

/-! ### transfer_get_l_list (transfer.c:673-846)

The C code evaluates `pow(ppr->l_logstep, ptr->angular_rescaling)` and
`ppr->l_linstep * ptr->angular_rescaling` once per use; these two real values
are taken as the parameters `logfac` and `linreal` of the embedding. -/

/-- The logarithmic increment `MAX((int)(l * (logfac - 1)), 1)`
(transfer.c:718, 759). -/
def lLogIncrement (logfac : ℚ) (l : ℤ) : ℤ :=
  max (cInt ((l : ℚ) * (logfac - 1))) 1

/-- Logarithmic-step phase of `transfer_get_l_list` (transfer.c:761-768): keep
appending `l + increment` while the would-be value stays below `l_max` and the
increment stays below the linear step bound.  Returns the appended values and
the final current value. -/
def lLogPhase (logfac linreal : ℚ) (l_max current : ℤ) : List ℤ × ℤ :=
  let inc := lLogIncrement logfac current
  if h : current + inc < l_max ∧ (inc : ℚ) < linreal then
    let rest := lLogPhase logfac linreal l_max (current + inc)
    ((current + inc) :: rest.1, rest.2)
  else ([], current)
termination_by (l_max - current).toNat
decreasing_by
  have hinc : 1 ≤ lLogIncrement logfac current := le_max_right _ 1
  have h1 : current < l_max := by omega
  have h2 : 0 < l_max - current := by omega
  omega

/-- Linear-step phase of `transfer_get_l_list` (transfer.c:770-777): append
`l + increment` while it does not exceed `l_max`.  The C loop never checks the
sign of the increment and fails to terminate when it is `≤ 0`; the guard
`0 < inc` below makes the function total and agrees with the C loop whenever
the increment is positive (the only case in which the C loop returns). -/
def lLinPhase (inc l_max current : ℤ) : List ℤ × ℤ :=
  if h : 0 < inc ∧ current + inc ≤ l_max then
    let rest := lLinPhase inc l_max (current + inc)
    ((current + inc) :: rest.1, rest.2)
  else ([], current)
termination_by (l_max - current).toNat
decreasing_by omega

/-- The multipole list built by `transfer_get_l_list` (transfer.c:753-785):
start at `l = 2`, logarithmic phase, then linear phase, and finally force the
last value to `l_max` exactly when it is not already reached. -/
def transfer_get_l_list_values (logfac linreal : ℚ) (l_max : ℤ) : List ℤ :=
  let p1 := lLogPhase logfac linreal l_max 2
  let p2 := lLinPhase (cInt linreal) l_max p1.2
  let base : List ℤ := 2 :: (p1.1 ++ p2.1)
  if p2.2 ≠ l_max then base ++ [l_max] else base

/-- Overall `l_max` across requested observable classes (transfer.c:691-709). -/
def transfer_l_max (has_cls has_scalars has_cl_cmb_temperature
    has_cl_cmb_polarization has_cl_cmb_lensing_potential
    has_cl_lensing_potential has_cl_density has_tensors : Bool)
    (l_scalar_max l_lss_max l_tensor_max : ℤ) : ℤ :=
  let m0 : ℤ := 0
  let m1 := if has_cls ∧ has_scalars ∧
      (has_cl_cmb_temperature ∨ has_cl_cmb_polarization ∨
        has_cl_cmb_lensing_potential) then max l_scalar_max m0 else m0
  let m2 := if has_cls ∧ has_scalars ∧
      (has_cl_lensing_potential ∨ has_cl_density) then max l_lss_max m1 else m1
  if has_cls ∧ has_tensors then max l_tensor_max m2 else m2

/-- Per-(mode,type) truncated length computation of `transfer_get_l_list`
(transfer.c:822-841): error when the type requires an `l_max` beyond the last
grid point; otherwise walk to the first grid value `≥ type_l_max`, take that
index plus one, and extend by up to two extra points while staying below the
full grid length. -/
def transfer_l_size_tt (L : List ℤ) (type_l_max : ℤ) : Except String ℕ :=
  if type_l_max > L.getLastD 0 then .error "l_max greater than in Bessel table"
  else
    let i := L.findIdx (fun x => type_l_max ≤ x)
    let s := i + 1
    let s := if s < L.length then s + 1 else s
    let s := if s < L.length then s + 1 else s
    .ok s

/-! ### transfer_get_q_list (transfer.c:861-1065)

The wavenumber bounds (transfer.c:880-906) involve real square roots and are
modelled over ℝ.  The filling loop (transfer.c:955-1031) uses the curvature
only through `sqrt(K)` (closed case); the loop is modelled over ℚ with the
value of `sqrt(K)` passed as the parameter `sqrtK`, keeping the loop
executable. -/

/-- Bounds `(q_min, q_max)` computed by `transfer_get_q_list`
(transfer.c:880-906).  Flat: the upstream k bounds.  Open (`sgnK = -1`,
`K < 0`): both bounds offset by the curvature, with the maximum further
clamped when vector or tensor modes are requested.  Closed (`sgnK = 1`):
minimum forced to `3·sqrt(K)` (first admissible overtone), maximum the raw
upstream k maximum. -/
noncomputable def transfer_q_bounds (sgnK : ℤ) (K k0 kmaxcl : ℝ)
    (has_vectors has_tensors : Bool) : ℝ × ℝ :=
  if sgnK = 0 then (k0, kmaxcl)
  else if sgnK = -1 then
    let q_min := Real.sqrt (k0 * k0 + K)
    let q_max := Real.sqrt (kmaxcl * kmaxcl + K)
    let q_max := if has_vectors then min q_max (Real.sqrt (kmaxcl * kmaxcl + 2 * K))
      else q_max
    let q_max := if has_tensors then min q_max (Real.sqrt (kmaxcl * kmaxcl + 3 * K))
      else q_max
    (q_min, q_max)
  else (3 * Real.sqrt K, kmaxcl)

/-- Parameters of the q-filling loop: curvature sign, the value of `sqrt(K)`
(closed case), the oscillation period `q_period`, the precision parameters,
and the upper bound `q_max`.  `q_logstep_spline` is the curvature-adjusted
value computed at transfer.c:910. -/
structure QListParams where
  sgnK : ℤ
  sqrtK : ℚ
  q_period : ℚ
  q_linstep : ℚ
  q_logstep_spline : ℚ
  q_logstep_trapzd : ℚ
  hyper_flat_approximation_nu : ℚ
  q_numstep_transition : ℚ
  q_max : ℚ

/-- The blended geometric-to-linear step of the flat/open branch
(transfer.c:977-981), also reused as `q_step` in the closed high-q branch
(transfer.c:1014). -/
def qStepFlat (p : QListParams) (last : ℚ) : ℚ :=
  p.q_period * p.q_linstep * last / (last + p.q_linstep / p.q_logstep_spline)

/-- One step of the closed-geometry low-overtone branch
(transfer.c:997-1010): propose a value with the denser `q_logstep_trapzd`
logarithmic parameter, convert to an overtone index, round so the index
advances by at least one, and return `nu * sqrt(K)` with the new index. -/
def qClosedLowStep (p : QListParams) (last : ℚ) (nu : ℤ) : ℚ × ℤ :=
  let qtry := last + p.q_period * p.q_linstep * last /
    (last + p.q_linstep / p.q_logstep_trapzd)
  let nu_proposed := cInt (qtry / p.sqrtK)
  let nu1 := if nu_proposed ≤ nu + 1 then nu + 1 else nu_proposed
  (nu1 * p.sqrtK, nu1)

/-- State of the q-filling loop: the values generated so far in reverse order
(head = most recent, so `rev.length` is the C index `index_q`), the current
overtone index `nu`, and the `last_step`/`last_index` pair used by the
closed-geometry transition blending. -/
structure QState where
  rev : List ℚ
  nu : ℤ
  last_step : ℚ
  last_index : ℤ

/-- The q-filling loop of `transfer_get_q_list` (transfer.c:959-1031).
`fuel` is the remaining array capacity `q_size_max - index_q`; exhausting it
is exactly the in-loop `class_test(index_q >= q_size_max)` fatal error. -/
def qLoop (p : QListParams) : ℕ → QState → Except String (List ℚ)
  | fuel, st =>
    if st.rev.headD 0 < p.q_max then
      match fuel with
      | 0 => .error "buggy q-list definition"
      | fuel + 1 =>
        let last := st.rev.headD 0
        if p.sgnK ≤ 0 then
          qLoop p fuel { st with rev := (last + qStepFlat p last) :: st.rev }
        else
          if st.nu < cInt p.hyper_flat_approximation_nu then
            let r := qClosedLowStep p last st.nu
            qLoop p fuel
              { rev := r.1 :: st.rev, nu := r.2, last_step := r.1 - last,
                last_index := (st.rev.length : ℤ) + 1 }
          else
            let q_step := qStepFlat p last
            let d : ℤ := (st.rev.length : ℤ) - st.last_index
            let q := if d < cInt p.q_numstep_transition then
                last + (1 - (d : ℚ) / p.q_numstep_transition) * st.last_step +
                  (d : ℚ) / p.q_numstep_transition * q_step
              else last + q_step
            qLoop p fuel { st with rev := q :: st.rev }
    else .ok st.rev.reverse

/-- `transfer_get_q_list` after the bounds have been fixed
(transfer.c:953-1041): fill starting from `q_min` with overtone index 3,
then drop the last point if it overshot `q_max` strictly, and fail when fewer
than two points remain. -/
def transfer_get_q_list_model (p : QListParams) (q_min : ℚ) (q_size_max : ℕ) :
    Except String (List ℚ) :=
  match qLoop p (q_size_max - 1) ⟨[q_min], 3, 0, 0⟩ with
  | .error e => .error e
  | .ok L =>
    let L1 := if L.getLastD 0 > p.q_max then L.dropLast else L
    if L1.length < 2 then .error "buggy q-list definition" else .ok L1

/-- The overtone integrality check of `transfer_update_HIS`
(transfer.c:4047-4052) as a function of `nu = q/sqrt(K)`: computes
`int_nu = (int)(nu+0.2)` and reports a fatal error (`true`) exactly when
`nu - int_nu > 1e-6`. -/
def transfer_update_HIS_nu_check (nu : ℚ) : Bool :=
  decide (nu - (cInt (nu + 1/5) : ℚ) > 1/1000000)

/-! ### transfer_get_k_list (transfer.c:1288-1337) -/

inductive PerturbMode
  | scalars
  | vectors
  | tensors
deriving DecidableEq

/-- The spin value `m` selected per mode (transfer.c:1303-1311). -/
def modeSpin : PerturbMode → ℝ
  | .scalars => 0
  | .vectors => 1
  | .tensors => 2

/-- `k(q) = sqrt(q² - K(m+1))` (transfer.c:1315). -/
noncomputable def transfer_k_of_q (K m q : ℝ) : ℝ :=
  Real.sqrt (q * q - K * (m + 1))

/-- Embedding of the per-mode body of `transfer_get_k_list`
(transfer.c:1300-1332): derive `k` at every grid index and fail unless the
first derived value is `≥` the upstream minimum and the last is `≤` the
upstream maximum (so that source interpolation never extrapolates). -/
noncomputable def transfer_get_k_list_mode (K m : ℝ) (q_size : ℕ) (q : ℕ → ℝ)
    (ppt_k_min ppt_k_max : ℝ) : Except String (ℕ → ℝ) :=
  let k := fun i => transfer_k_of_q K m (q i)
  if k 0 < ppt_k_min then .error "bug in k_list calculation"
  else if k (q_size - 1) > ppt_k_max then .error "bug in k_list calculation"
  else .ok k

/-! ### transfer_integrate (transfer.c:3131-3302)

`tau0_minus_tau_min_bessel` (the smallest time-coordinate at which the radial
kernel is non-negligible, transfer.c:3165-3190) and the sampled radial kernel
values (produced by `transfer_radial_function`) are taken as parameters; the
claims are about the integration logic downstream of them. -/

/-- The downward scan `while (tau0_minus_tau[i] < c) i--` started at `n`
(transfer.c:3231-3233): the largest index `i ≤ n` with `f i ≥ c`, or `0` if
none (the C loop never passes index 0 on the inputs reachable after the
overlap guard). -/
def lastGE (f : ℕ → ℚ) (c : ℚ) : ℕ → ℕ
  | 0 => 0
  | n + 1 => if f (n + 1) < c then lastGE f c n else n + 1

/-- The downward scan `while (sources[i] == 0) { i--; if (i < 0) return 0; }`
started at `n` (transfer.c:3239-3245): the largest index `i ≤ n` with
`s i ≠ 0`, or `none` when the source vanishes everywhere up to `n`. -/
def lastNonzero (s : ℕ → ℚ) : ℕ → Option ℕ
  | 0 => if s 0 = 0 then none else some 0
  | n + 1 => if s (n + 1) = 0 then lastNonzero s n else some (n + 1)

/-- The downward scan `while (tau0_minus_tau[i] < cut) { i--; if (i < 0)
return 0; }` started at `n` (transfer.c:3247-3256): largest `i ≤ n` with
`f i ≥ cut`, or `none`. -/
def lastGEOpt (f : ℕ → ℚ) (c : ℚ) : ℕ → Option ℕ
  | 0 => if f 0 < c then none else some 0
  | n + 1 => if f (n + 1) < c then lastGEOpt f c n else some (n + 1)

/-- Modelled from the spec: `array_trapezoidal_convolution` (tools/arrays.c,
not under src/) — the convolution integral via trapezoidal quadrature with
precomputed weights, `Σ_i f1(i)·f2(i)·w(i)` over the first `n` samples. -/
def array_trapezoidal_convolution (f1 f2 : ℕ → ℚ) (n : ℕ) (w : ℕ → ℚ) : ℚ :=
  ∑ i ∈ Finset.range n, f1 i * f2 i * w i

/-- Embedding of `transfer_integrate` (transfer.c:3131-3302).  `radial i` is
the sampled radial kernel value at time index `i`. -/
def transfer_integrate_model (tau_size : ℕ)
    (tau0_minus_tau sources w_trapz radial : ℕ → ℚ)
    (tau0_minus_tau_min_bessel : ℚ) (neglect_late_source : Bool)
    (tau0_minus_tau_cut : ℚ) : ℚ :=
  if tau0_minus_tau_min_bessel ≥ tau0_minus_tau 0 then 0
  else if tau_size = 1 then sources 0 * radial 0
  else
    let iB := lastGE tau0_minus_tau tau0_minus_tau_min_bessel (tau_size - 1)
    match lastNonzero sources iB with
    | none => 0
    | some i1 =>
      match (if neglect_late_source then
          lastGEOpt tau0_minus_tau tau0_minus_tau_cut i1 else some i1) with
      | none => 0
      | some i2 =>
        let base := array_trapezoidal_convolution sources radial (i2 + 1) w_trapz
        if i2 ≠ tau_size - 1 ∧ i2 = iB then
          base - 1/2 * (tau0_minus_tau (i2 + 1) - tau0_minus_tau_min_bessel) *
            radial i2 * sources i2
        else base

/-! ### transfer_limber (transfer.c:3323-3416) -/

/-- Modelled from the spec: `array_interpolate_parabola` (tools/arrays.c, not
under src/) — the value at `xd` of the quadratic through `(x1,y1)`, `(x2,y2)`,
`(x3,y3)` (Lagrange form). -/
def array_interpolate_parabola_S (x1 x2 x3 xd y1 y2 y3 : ℚ) : ℚ :=
  y1 * (xd - x2) * (xd - x3) / ((x1 - x2) * (x1 - x3)) +
  y2 * (xd - x1) * (xd - x3) / ((x2 - x1) * (x2 - x3)) +
  y3 * (xd - x1) * (xd - x2) / ((x3 - x1) * (x3 - x2))

/-- The bracketing-index search of `transfer_limber` (transfer.c:3361-3363):
starting from `i = 1`, advance while `tau0_minus_tau i > t` and `i < nm2`
(`nm2` stands for `tau_size - 2`). -/
def limberBracket (tau0_minus_tau : ℕ → ℚ) (nm2 : ℕ) (t : ℚ) (i : ℕ) : ℕ :=
  if h : tau0_minus_tau i > t ∧ i < nm2 then limberBracket tau0_minus_tau nm2 t (i + 1)
  else i
termination_by nm2 - i
decreasing_by omega

/-- The quadratic-fit value `S` of `transfer_limber` (transfer.c:3370-3406):
interpolate the product `source·(tau0-tau)`; at the edge bracket
(`i = tau_size-2`) the third ordinate is replaced by the second one, using
that the product is constant near `tau = tau0`. -/
def transfer_limber_S (tau_size : ℕ) (tau0_minus_tau sources : ℕ → ℚ) (t : ℚ) : ℚ :=
  let i := limberBracket tau0_minus_tau (tau_size - 2) t 1
  if i < tau_size - 2 then
    array_interpolate_parabola_S (tau0_minus_tau (i - 1)) (tau0_minus_tau i)
      (tau0_minus_tau (i + 1)) t
      (sources (i - 1) * tau0_minus_tau (i - 1)) (sources i * tau0_minus_tau i)
      (sources (i + 1) * tau0_minus_tau (i + 1))
  else
    array_interpolate_parabola_S (tau0_minus_tau (i - 1)) (tau0_minus_tau i)
      (tau0_minus_tau (i + 1)) t
      (sources (i - 1) * tau0_minus_tau (i - 1)) (sources i * tau0_minus_tau i)
      (sources i * tau0_minus_tau i)

/-- Embedding of `transfer_limber` (transfer.c:3323-3416): compute
`tau0 - tau = (l+1/2)/k`, return 0 outside the stored sample range, otherwise
return `sqrt(π/(2l+1)) · S / (l+1/2)` with `S` the quadratic-fit value. -/
noncomputable def transfer_limber_model (tau_size : ℕ)
    (tau0_minus_tau sources : ℕ → ℚ) (l k : ℚ) : ℝ :=
  let t := (l + 1/2) / k
  if t > tau0_minus_tau 0 ∨ t < tau0_minus_tau (tau_size - 1) then 0
  else Real.sqrt (Real.pi / (2 * l + 1)) *
    (transfer_limber_S tau_size tau0_minus_tau sources t : ℝ) / ((l : ℝ) + 1/2)

/-! ### transfer_selection_compute and the selection time sampling
(transfer.c:2863-2940, 2790-2844, 1549-1587) -/

/-- Modelled from the spec: `array_trapezoidal_integral` (tools/arrays.c, not
under src/) — `Σ_i f(i)·w(i)` over the first `n` samples. -/
def array_trapezoidal_integral (f : ℕ → ℚ) (n : ℕ) (w : ℕ → ℚ) : ℚ :=
  ∑ i ∈ Finset.range n, f i * w i

/-- Embedding of `transfer_selection_compute` (transfer.c:2863-2940).
`raw i` is the unnormalized window value `dN/dz(z_i) · H(z_i)` assembled from
the background provider and `transfer_selection_function`; the routine
divides it by its own trapezoidal integral. -/
def transfer_selection_compute_model (raw w : ℕ → ℚ) (tau_size : ℕ) : ℕ → ℚ :=
  fun i => raw i / array_trapezoidal_integral raw tau_size w

/-- Embedding of `transfer_selection_times` (transfer.c:2790-2844):
`tau_of_z` is the background provider's conformal-time-of-redshift map;
`cut` is `ppr->selection_cut_at_sigma` and `edge` is
`ppr->selection_tophat_edge`. -/
def transfer_selection_times_model (shape : SelectionShape)
    (mean width cut edge : ℚ) (tau_of_z : ℚ → ℚ) : ℚ × ℚ × ℚ :=
  let z_lo := match shape with
    | .gaussian => mean + width * cut
    | .tophat => mean + (1 + cut * edge) * width
    | .dirac => mean
  let z_hi := match shape with
    | .gaussian => max (mean - width * cut) 0
    | .tophat => max (mean - (1 + cut * edge) * width) 0
    | .dirac => mean
  (tau_of_z z_lo, tau_of_z (max mean 0), tau_of_z z_hi)

/-- The density branch of `transfer_source_tau_size` (transfer.c:1549-1587):
`tau_size = 1` for a Dirac window (`tau_min = tau_max`), otherwise the larger
of `(int)selection_sampling` and the Bessel-resolution estimate, with
`l_limber = (int)(l_switch_limber_for_cl_density_over_z · selection_mean)`. -/
def transfer_source_tau_size_density (tau_min tau_mean tau_max tau0 : ℚ)
    (selection_sampling selection_sampling_bessel : ℚ)
    (l_switch_limber_for_cl_density_over_z selection_mean : ℚ) : ℤ :=
  if tau_min = tau_max then 1
  else
    let l_limber : ℤ := cInt (l_switch_limber_for_cl_density_over_z * selection_mean)
    cInt (max ((cInt selection_sampling : ℚ))
      ((cInt ((tau_max - tau_min) / ((tau0 - tau_mean) / (l_limber : ℚ))) : ℚ) *
        selection_sampling_bessel))

/-- Example parameter set for the closed-geometry loop, with `sqrt(K) = 2`. -/
def qParamsClosedEx : QListParams where
  sgnK := 1
  sqrtK := 2
  q_period := 1
  q_linstep := 1
  q_logstep_spline := 1
  q_logstep_trapzd := 1
  hyper_flat_approximation_nu := 100
  q_numstep_transition := 10
  q_max := 100

/-- Example parameter set for the flat-geometry loop: step
`q_period·q_linstep·q/(q + q_linstep/q_logstep_spline) = q/(q+1)`. -/
def qParamsFlatEx : QListParams where
  sgnK := 0
  sqrtK := 0
  q_period := 1
  q_linstep := 1
  q_logstep_spline := 1
  q_logstep_trapzd := 1
  hyper_flat_approximation_nu := 0
  q_numstep_transition := 0
  q_max := 2

/-! ## Theorems -/

/-- C1 (counterexample): the claim states that Limber is never selected for a
windowed or lensing type when the selection window is a Dirac; but for a
galaxy-lensing type with a Dirac window (`limberCtxDirac`, type index 2, one
bin, `q = 1 ≤ q_max_bessel = 1000`, `l = 40 ≥ 30·1`) `transfer_use_limber`
does select the Limber approximation: the Dirac guard is only present in the
number-count branch. -/
theorem claim_C1_counterexample :
    limberCtxDirac.selection = SelectionShape.dirac ∧
    limberCtxDirac.has_cl_lensing_potential = true ∧
    limberCtxDirac.index_tt_lensing ≤ 2 ∧
    2 < limberCtxDirac.index_tt_lensing + limberCtxDirac.selection_num ∧
    transfer_use_limber limberCtxDirac true 1000 2 1 40 = true := by
  refine ⟨rfl, rfl, by decide, by decide, ?_⟩
  norm_num [transfer_use_limber, limberCtxDirac]

/-- C1 (amended): provided the number-count and galaxy-lensing type index
ranges do not overlap at the considered type, `transfer_use_limber` selects
Limber exactly when `q` exceeds `q_max_bessel`, or in the scalar mode when:
the type is the CMB lensing potential and `l` exceeds `l_switch_limber`; or
the type is a number-count bin with non-Dirac window and `l` reaches the
configured threshold scaled by the bin mean; or the type is a galaxy-lensing
bin and `l` reaches the scaled threshold, regardless of the window shape
(the Dirac guard applies only to number counts). -/
theorem claim_C1 (ctx : LimberCtx) (scalars : Bool) (q_max_bessel : ℚ)
    (index_tt : ℕ) (q l : ℚ)
    (hdisj : ¬ ((ctx.has_cl_density = true ∧ ctx.index_tt_density ≤ index_tt ∧
        index_tt < ctx.index_tt_density + ctx.selection_num) ∧
      (ctx.has_cl_lensing_potential = true ∧ ctx.index_tt_lensing ≤ index_tt ∧
        index_tt < ctx.index_tt_lensing + ctx.selection_num))) :
    transfer_use_limber ctx scalars q_max_bessel index_tt q l = true ↔
      (q > q_max_bessel ∨ (scalars = true ∧
        ((ctx.has_cl_cmb_lensing_potential = true ∧ index_tt = ctx.index_tt_lcmb ∧
            l > ctx.l_switch_limber) ∨
          (ctx.has_cl_density = true ∧ ctx.index_tt_density ≤ index_tt ∧
            index_tt < ctx.index_tt_density + ctx.selection_num ∧
            l ≥ ctx.l_switch_limber_for_cl_density_over_z *
              ctx.selection_mean (index_tt - ctx.index_tt_density) ∧
            ctx.selection ≠ SelectionShape.dirac) ∨
          (ctx.has_cl_lensing_potential = true ∧ ctx.index_tt_lensing ≤ index_tt ∧
            index_tt < ctx.index_tt_lensing + ctx.selection_num ∧
            l ≥ ctx.l_switch_limber_for_cl_density_over_z *
              ctx.selection_mean (index_tt - ctx.index_tt_lensing))))) := by
  by_cases h1 : q > q_max_bessel
  · simp [transfer_use_limber, h1]
  · cases scalars with
    | false => simp [transfer_use_limber, h1]
    | true =>
      by_cases h3 : ctx.has_cl_cmb_lensing_potential = true ∧
          index_tt = ctx.index_tt_lcmb ∧ l > ctx.l_switch_limber
      · simp [transfer_use_limber, h1, h3]
      · by_cases h4 : ctx.has_cl_density = true ∧ ctx.index_tt_density ≤ index_tt ∧
            index_tt < ctx.index_tt_density + ctx.selection_num ∧
            l ≥ ctx.l_switch_limber_for_cl_density_over_z *
              ctx.selection_mean (index_tt - ctx.index_tt_density)
        · have hlens : ¬(ctx.has_cl_lensing_potential = true ∧
              ctx.index_tt_lensing ≤ index_tt ∧
              index_tt < ctx.index_tt_lensing + ctx.selection_num) :=
            fun hl => hdisj ⟨⟨h4.1, h4.2.1, h4.2.2.1⟩, hl⟩
          simp [transfer_use_limber, h1, h3, h4] <;> tauto
        · by_cases h5 : ctx.has_cl_lensing_potential = true ∧
              ctx.index_tt_lensing ≤ index_tt ∧
              index_tt < ctx.index_tt_lensing + ctx.selection_num ∧
              l ≥ ctx.l_switch_limber_for_cl_density_over_z *
                ctx.selection_mean (index_tt - ctx.index_tt_lensing)
          · simp [transfer_use_limber, h1, h3, h4, h5] <;> tauto
          · simp [transfer_use_limber, h1, h3, h4, h5] <;> tauto

/-- C1 (witness): the amended characterization applied to the Dirac
galaxy-lensing instance. -/
theorem claim_C1_witness :
    ¬ ((limberCtxDirac.has_cl_density = true ∧ limberCtxDirac.index_tt_density ≤ 2 ∧
        2 < limberCtxDirac.index_tt_density + limberCtxDirac.selection_num) ∧
      (limberCtxDirac.has_cl_lensing_potential = true ∧
        limberCtxDirac.index_tt_lensing ≤ 2 ∧
        2 < limberCtxDirac.index_tt_lensing + limberCtxDirac.selection_num)) ∧
    (transfer_use_limber limberCtxDirac true 1000 2 1 40 = true ↔
      ((1 : ℚ) > 1000 ∨ (true = true ∧
        ((limberCtxDirac.has_cl_cmb_lensing_potential = true ∧
            2 = limberCtxDirac.index_tt_lcmb ∧
            (40 : ℚ) > limberCtxDirac.l_switch_limber) ∨
          (limberCtxDirac.has_cl_density = true ∧ limberCtxDirac.index_tt_density ≤ 2 ∧
            2 < limberCtxDirac.index_tt_density + limberCtxDirac.selection_num ∧
            (40 : ℚ) ≥ limberCtxDirac.l_switch_limber_for_cl_density_over_z *
              limberCtxDirac.selection_mean (2 - limberCtxDirac.index_tt_density) ∧
            limberCtxDirac.selection ≠ SelectionShape.dirac) ∨
          (limberCtxDirac.has_cl_lensing_potential = true ∧
            limberCtxDirac.index_tt_lensing ≤ 2 ∧
            2 < limberCtxDirac.index_tt_lensing + limberCtxDirac.selection_num ∧
            (40 : ℚ) ≥ limberCtxDirac.l_switch_limber_for_cl_density_over_z *
              limberCtxDirac.selection_mean (2 - limberCtxDirac.index_tt_lensing)))))) :=
  ⟨by decide, claim_C1 limberCtxDirac true 1000 2 1 40 (by decide)⟩

/-- C10: when the perturbation module requests no harmonic spectra,
`transfer_init` returns success immediately with `has_cls = false` and no
grid or table allocated, and a subsequent `transfer_free` frees nothing
(zero `free()` calls) and also returns success. -/
theorem claim_C10 (md_size : ℕ) (rest : TransfersAlloc → TransfersAlloc × Bool) :
    transfer_init_model false md_size rest = (transfersUnallocated false md_size, true) ∧
    (transfer_init_model false md_size rest).1.has_cls = false ∧
    (transfer_init_model false md_size rest).1.l_alloc = false ∧
    (transfer_init_model false md_size rest).1.q_alloc = false ∧
    (transfer_init_model false md_size rest).1.k_alloc = false ∧
    (transfer_init_model false md_size rest).1.transfer_alloc = false ∧
    transfer_free_model (transfer_init_model false md_size rest).1 =
      ((transfer_init_model false md_size rest).1, 0, true) := by
  simp [transfer_init_model, transfer_free_model, transfersUnallocated]

/-- C9: after `transfer_selection_compute` the trapezoidal integral of the
normalized selection window equals 1 in exact arithmetic whenever the
unnormalized integral is nonzero (any shape); and for a Dirac selection the
selection interval degenerates (`tau_min = tau_max`) so the density-type time
sampling has exactly one point. -/
theorem claim_C9 :
    (∀ (raw w : ℕ → ℚ) (n : ℕ), array_trapezoidal_integral raw n w ≠ 0 →
      array_trapezoidal_integral (transfer_selection_compute_model raw w n) n w = 1) ∧
    (∀ (mean width cut edge tau0 ss ssb th : ℚ) (tau_of_z : ℚ → ℚ),
      (transfer_selection_times_model SelectionShape.dirac mean width cut edge tau_of_z).1 =
        (transfer_selection_times_model SelectionShape.dirac mean width cut edge tau_of_z).2.2 ∧
      transfer_source_tau_size_density
        (transfer_selection_times_model SelectionShape.dirac mean width cut edge tau_of_z).1
        (transfer_selection_times_model SelectionShape.dirac mean width cut edge tau_of_z).2.1
        (transfer_selection_times_model SelectionShape.dirac mean width cut edge tau_of_z).2.2
        tau0 ss ssb th mean = 1) := by
  constructor
  · intro raw w n h
    have key : array_trapezoidal_integral (transfer_selection_compute_model raw w n) n w =
        array_trapezoidal_integral raw n w / array_trapezoidal_integral raw n w := by
      unfold transfer_selection_compute_model
      unfold array_trapezoidal_integral
      rw [Finset.sum_div]
      exact Finset.sum_congr rfl fun i _ => by ring
    rw [key, div_self h]
  · intro mean width cut edge tau0 ss ssb th tau_of_z
    refine ⟨rfl, ?_⟩
    simp [transfer_selection_times_model, transfer_source_tau_size_density]

/-- C9 (witness): normalization at a concrete two-sample window, Dirac case
at concrete bin parameters. -/
theorem claim_C9_witness :
    (array_trapezoidal_integral (fun _ => (3:ℚ)) 2 (fun _ => (1/2:ℚ)) ≠ 0 ∧
      array_trapezoidal_integral
        (transfer_selection_compute_model (fun _ => (3:ℚ)) (fun _ => (1/2:ℚ)) 2) 2
        (fun _ => (1/2:ℚ)) = 1) ∧
    transfer_source_tau_size_density
      (transfer_selection_times_model SelectionShape.dirac 1 (1/10) 5 (1/10) (fun z => 100 - z)).1
      (transfer_selection_times_model SelectionShape.dirac 1 (1/10) 5 (1/10) (fun z => 100 - z)).2.1
      (transfer_selection_times_model SelectionShape.dirac 1 (1/10) 5 (1/10) (fun z => 100 - z)).2.2
      200 10 3 30 1 = 1 :=
  ⟨⟨by norm_num [array_trapezoidal_integral, Finset.sum_range_succ],
    claim_C9.1 (fun _ => 3) (fun _ => 1/2) 2
      (by norm_num [array_trapezoidal_integral, Finset.sum_range_succ])⟩,
    (claim_C9.2 1 (1/10) 5 (1/10) 200 10 3 30 (fun z => 100 - z)).2⟩

/-- C7 (counterexample): the claim states that a deviation of `nu = q/sqrt(K)`
from the *nearest* integer beyond the `1e-6` tolerance is reported as a fatal
error; but at `nu = 3.9` (distance `0.1` from the nearest integer `4`) the
check of `transfer_update_HIS` passes, because `(int)(nu+0.2) = 4` and
`nu - 4 = -0.1` is not `> 1e-6`: only deviations *above* the shifted-floor
integer are detected. -/
theorem claim_C7_counterexample :
    transfer_update_HIS_nu_check (39/10) = false ∧
    (1/1000000 : ℚ) < |(39/10 : ℚ) - (round (39/10 : ℚ) : ℚ)| := by
  constructor
  · have h4 : cInt ((39:ℚ)/10 + 1/5) = 4 := by
      unfold cInt
      rw [if_pos (by norm_num)]
      norm_num [Int.floor_eq_iff]
    simp only [transfer_update_HIS_nu_check, h4]
    norm_num
  · have hr : round ((39:ℚ)/10) = 4 := by
      rw [round_eq]
      norm_num [Int.floor_eq_iff]
    rw [hr]
    norm_num [abs_of_nonpos]

/-- C7 (amended): in the closed-geometry low-overtone branch every generated
`q` is an exact integer multiple of `sqrt(K)` and the overtone index always
advances by at least one, keeping the grid strictly increasing; and the
rebuild-time check of `transfer_update_HIS` errors exactly when `nu` exceeds
`(int)(nu+0.2)` by more than `1e-6`, i.e. when the fractional part of `nu`
lies in `(1e-6, 0.8)` — a `nu` lying within `0.2` below an integer passes
even when its distance to the nearest integer exceeds the tolerance. -/
theorem claim_C7 (p : QListParams) (nu : ℤ) (last : ℚ)
    (hs : 0 < p.sqrtK) (hlast : last = (nu : ℚ) * p.sqrtK)
    (x : ℚ) (hx : 0 ≤ x) :
    (qClosedLowStep p last nu).1 = ((qClosedLowStep p last nu).2 : ℚ) * p.sqrtK ∧
    nu + 1 ≤ (qClosedLowStep p last nu).2 ∧
    last < (qClosedLowStep p last nu).1 ∧
    (transfer_update_HIS_nu_check x = true ↔
      (1/1000000 < x - (⌊x⌋ : ℚ) ∧ x - (⌊x⌋ : ℚ) < 4/5)) := by
  have hnu1 : nu + 1 ≤ (qClosedLowStep p last nu).2 := by
    unfold qClosedLowStep
    dsimp only
    split_ifs with h
    · exact le_refl _
    · omega
  refine ⟨rfl, hnu1, ?_, ?_⟩
  · have hcast : (nu : ℚ) < ((qClosedLowStep p last nu).2 : ℚ) := by
      exact_mod_cast lt_of_lt_of_le (by omega) hnu1
    calc last = (nu : ℚ) * p.sqrtK := hlast
      _ < ((qClosedLowStep p last nu).2 : ℚ) * p.sqrtK :=
        mul_lt_mul_of_pos_right hcast hs
      _ = (qClosedLowStep p last nu).1 := rfl
  · have hfl : (⌊x⌋ : ℚ) ≤ x := Int.floor_le x
    have hfu : x < (⌊x⌋ : ℚ) + 1 := Int.lt_floor_add_one x
    have hc : cInt (x + 1/5) = ⌊x + 1/5⌋ := by
      unfold cInt
      rw [if_pos (by linarith)]
    unfold transfer_update_HIS_nu_check
    rw [hc]
    by_cases hfrac : x - (⌊x⌋ : ℚ) < 4/5
    · have hfe : ⌊x + 1/5⌋ = ⌊x⌋ := by
        rw [Int.floor_eq_iff]
        constructor
        · linarith
        · push_cast
          linarith
      rw [hfe]
      simp only [decide_eq_true_eq]
      constructor
      · exact fun h => ⟨h, hfrac⟩
      · exact fun h => h.1
    · have hfe : ⌊x + 1/5⌋ = ⌊x⌋ + 1 := by
        rw [Int.floor_eq_iff]
        constructor
        · push_cast
          linarith
        · push_cast
          linarith
      rw [hfe]
      simp only [decide_eq_true_eq]
      constructor
      · intro h
        exfalso
        push_cast at h
        linarith
      · intro h
        exact absurd h.2 hfrac

/-- C7 (witness): the amended statement at `sqrt(K) = 2`, `nu = 3`,
`last = 6`, and `x = 3.5`. -/
theorem claim_C7_witness :
    (qClosedLowStep qParamsClosedEx 6 3).1 =
      ((qClosedLowStep qParamsClosedEx 6 3).2 : ℚ) * qParamsClosedEx.sqrtK ∧
    3 + 1 ≤ (qClosedLowStep qParamsClosedEx 6 3).2 ∧
    (6 : ℚ) < (qClosedLowStep qParamsClosedEx 6 3).1 ∧
    (transfer_update_HIS_nu_check (7/2) = true ↔
      (1/1000000 < (7/2 : ℚ) - (⌊(7/2 : ℚ)⌋ : ℚ) ∧
        (7/2 : ℚ) - (⌊(7/2 : ℚ)⌋ : ℚ) < 4/5)) :=
  claim_C7 qParamsClosedEx 3 6 (by norm_num [qParamsClosedEx])
    (by norm_num [qParamsClosedEx]) (7/2) (by norm_num)

/-- C5 (counterexample): the claim states that in closed space the maximum
wavenumber bound is clamped according to mode spin (tighter when vector or
tensor modes are requested); but in the closed branch of
`transfer_get_q_list` the maximum is the raw upstream k maximum, independent
of the vector/tensor flags: with `K = 1`, upstream bounds `[0.1, 5]`, the
bound is `5` with and without tensors.  (The spin clamp sits in the *open*
branch.) -/
theorem claim_C5_counterexample :
    (transfer_q_bounds 1 1 (1/10) 5 false true).2 =
      (transfer_q_bounds 1 1 (1/10) 5 false false).2 ∧
    (transfer_q_bounds 1 1 (1/10) 5 false true).2 = 5 := by
  norm_num [transfer_q_bounds]

set_option maxHeartbeats 1600000 in
/-- C5 (amended): flat bounds equal the upstream k bounds; in closed space
the minimum is forced to exactly `3·sqrt(K)` while the maximum equals the
upstream k maximum independently of mode spin; in open space both bounds are
offset by the curvature (`q_min² = k_min² + K`), and there the maximum is
clamped tighter when vector or tensor modes are requested. -/
theorem claim_C5 (K k0 kmaxcl : ℝ) (hv ht : Bool) :
    transfer_q_bounds 0 K k0 kmaxcl hv ht = (k0, kmaxcl) ∧
    transfer_q_bounds 1 K k0 kmaxcl hv ht = (3 * Real.sqrt K, kmaxcl) ∧
    (transfer_q_bounds 1 K k0 kmaxcl hv ht).2 =
      (transfer_q_bounds 1 K k0 kmaxcl false false).2 ∧
    (transfer_q_bounds (-1) K k0 kmaxcl hv ht).1 = Real.sqrt (k0 * k0 + K) ∧
    (0 ≤ k0 * k0 + K →
      (transfer_q_bounds (-1) K k0 kmaxcl hv ht).1 ^ 2 = k0 * k0 + K) ∧
    (ht = true → (transfer_q_bounds (-1) K k0 kmaxcl hv ht).2 ≤
      Real.sqrt (kmaxcl * kmaxcl + 3 * K)) ∧
    (hv = true → (transfer_q_bounds (-1) K k0 kmaxcl hv ht).2 ≤
      Real.sqrt (kmaxcl * kmaxcl + 2 * K)) ∧
    (transfer_q_bounds (-1) K k0 kmaxcl hv ht).2 ≤
      Real.sqrt (kmaxcl * kmaxcl + K) := by
  have h1 : (transfer_q_bounds (-1) K k0 kmaxcl hv ht).1 = Real.sqrt (k0 * k0 + K) := by
    cases hv <;> cases ht <;> norm_num [transfer_q_bounds]
  refine ⟨by norm_num [transfer_q_bounds], by norm_num [transfer_q_bounds],
    by norm_num [transfer_q_bounds], h1, ?_, ?_, ?_, ?_⟩
  · intro h
    rw [h1, Real.sq_sqrt h]
  · intro h
    subst h
    cases hv <;> norm_num [transfer_q_bounds] <;>
      first
      | exact min_le_right _ _
      | exact le_refl _
  · intro h
    subst h
    cases ht <;> norm_num [transfer_q_bounds] <;>
      first
      | exact min_le_right _ _
      | exact le_trans (min_le_left _ _) (min_le_right _ _)
      | exact le_refl _
  · cases hv <;> cases ht <;> norm_num [transfer_q_bounds] <;>
      first
      | exact min_le_left _ _
      | exact le_trans (min_le_left _ _) (min_le_left _ _)
      | exact le_refl _

lemma lLogPhase_spec (logfac linreal : ℚ) (l_max : ℤ) :
    ∀ (n : ℕ) (current : ℤ), (l_max - current).toNat ≤ n → current ≤ l_max →
      List.Chain' (· < ·) (current :: (lLogPhase logfac linreal l_max current).1) ∧
      (current :: (lLogPhase logfac linreal l_max current).1).getLastD 0 =
        (lLogPhase logfac linreal l_max current).2 ∧
      current ≤ (lLogPhase logfac linreal l_max current).2 ∧
      (lLogPhase logfac linreal l_max current).2 ≤ l_max := by
  intro n
  induction n with
  | zero =>
    intro current hn hc
    have hinc : 1 ≤ lLogIncrement logfac current := le_max_right _ _
    have hg : ¬(current + lLogIncrement logfac current < l_max ∧
        ((lLogIncrement logfac current : ℚ) < linreal)) := by
      intro hcon
      omega
    rw [lLogPhase, dif_neg hg]
    exact ⟨List.chain'_singleton _, rfl, le_refl _, hc⟩
  | succ n ih =>
    intro current hn hc
    have hinc : 1 ≤ lLogIncrement logfac current := le_max_right _ _
    by_cases hg : current + lLogIncrement logfac current < l_max ∧
        ((lLogIncrement logfac current : ℚ) < linreal)
    · rw [lLogPhase, dif_pos hg]
      dsimp only
      have hrec := ih (current + lLogIncrement logfac current) (by omega) (le_of_lt hg.1)
      obtain ⟨hch, hlast, hge, hle⟩ := hrec
      refine ⟨List.chain'_cons.mpr ⟨by omega, hch⟩, ?_, by omega, hle⟩
      rw [List.getLastD_cons]
      rw [List.getLastD_cons] at hlast ⊢
      exact hlast
    · rw [lLogPhase, dif_neg hg]
      exact ⟨List.chain'_singleton _, rfl, le_refl _, hc⟩

lemma lLinPhase_spec (inc l_max : ℤ) :
    ∀ (n : ℕ) (current : ℤ), (l_max - current).toNat ≤ n → current ≤ l_max →
      List.Chain' (· < ·) (current :: (lLinPhase inc l_max current).1) ∧
      (current :: (lLinPhase inc l_max current).1).getLastD 0 =
        (lLinPhase inc l_max current).2 ∧
      current ≤ (lLinPhase inc l_max current).2 ∧
      (lLinPhase inc l_max current).2 ≤ l_max := by
  intro n
  induction n with
  | zero =>
    intro current hn hc
    by_cases hg : 0 < inc ∧ current + inc ≤ l_max
    · exact absurd hg (by omega)
    · rw [lLinPhase, dif_neg hg]
      exact ⟨List.chain'_singleton _, rfl, le_refl _, hc⟩
  | succ n ih =>
    intro current hn hc
    by_cases hg : 0 < inc ∧ current + inc ≤ l_max
    · rw [lLinPhase, dif_pos hg]
      dsimp only
      have hrec := ih (current + inc) (by omega) hg.2
      obtain ⟨hch, hlast, hge, hle⟩ := hrec
      refine ⟨List.chain'_cons.mpr ⟨by omega, hch⟩, ?_, by omega, hle⟩
      rw [List.getLastD_cons]
      rw [List.getLastD_cons] at hlast ⊢
      exact hlast
    · rw [lLinPhase, dif_neg hg]
      exact ⟨List.chain'_singleton _, rfl, le_refl _, hc⟩

lemma chain_append_last (a b : ℤ) (l1 l2 : List ℤ)
    (h1 : List.Chain' (· < ·) (a :: l1)) (hl1 : (a :: l1).getLastD 0 = b)
    (h2 : List.Chain' (· < ·) (b :: l2)) :
    List.Chain' (· < ·) (a :: (l1 ++ l2)) ∧
    (a :: (l1 ++ l2)).getLastD 0 = (b :: l2).getLastD 0 := by
  induction l1 generalizing a with
  | nil =>
    simp only [List.getLastD_cons, List.getLastD_nil] at hl1
    subst hl1
    exact ⟨h2, by simp [List.getLastD_cons]⟩
  | cons x xs ih =>
    rw [List.chain'_cons] at h1
    have hl1x : (x :: xs).getLastD 0 = b := by
      rw [List.getLastD_cons] at hl1 ⊢
      rw [List.getLastD_cons] at hl1
      exact hl1
    have hx := ih x h1.2 hl1x
    constructor
    · rw [List.cons_append, List.chain'_cons]
      exact ⟨h1.1, hx.1⟩
    · calc (a :: ((x :: xs) ++ l2)).getLastD 0
          = ((x :: xs) ++ l2).getLastD a := List.getLastD_cons ..
        _ = (xs ++ l2).getLastD x := by rw [List.cons_append, List.getLastD_cons]
        _ = (x :: (xs ++ l2)).getLastD 0 := (List.getLastD_cons ..).symm
        _ = (b :: l2).getLastD 0 := hx.2

/-- C4: `transfer_get_l_list` builds a strictly increasing multipole grid
starting at 2 whose last element equals exactly `l_max` (assuming `l_max ≥ 2`
and a positive linear step, the only regime in which the C loops return);
the per-type truncation errors precisely when a type requires an `l_max`
beyond the grid maximum, and every successfully computed per-type length is
bounded by the full grid length. -/
theorem claim_C4 (logfac linreal : ℚ) (l_max : ℤ)
    (h2 : 2 ≤ l_max) (hlin : 1 ≤ cInt linreal) :
    (transfer_get_l_list_values logfac linreal l_max).head? = some 2 ∧
    List.Chain' (· < ·) (transfer_get_l_list_values logfac linreal l_max) ∧
    (transfer_get_l_list_values logfac linreal l_max).getLastD 0 = l_max ∧
    (∀ tlm : ℤ,
      (transfer_l_size_tt (transfer_get_l_list_values logfac linreal l_max) tlm =
          Except.error "l_max greater than in Bessel table" ↔ l_max < tlm) ∧
      (∀ s, transfer_l_size_tt (transfer_get_l_list_values logfac linreal l_max) tlm =
          Except.ok s → s ≤ (transfer_get_l_list_values logfac linreal l_max).length)) := by
  obtain ⟨ch1, hl1, hge1, hle1⟩ :=
    lLogPhase_spec logfac linreal l_max (l_max - 2).toNat 2 (le_refl _) h2
  obtain ⟨ch2, hl2, hge2, hle2⟩ :=
    lLinPhase_spec (cInt linreal) l_max
      (l_max - (lLogPhase logfac linreal l_max 2).2).toNat
      (lLogPhase logfac linreal l_max 2).2 (le_refl _) hle1
  obtain ⟨chB, hlB⟩ := chain_append_last 2 (lLogPhase logfac linreal l_max 2).2
    (lLogPhase logfac linreal l_max 2).1
    (lLinPhase (cInt linreal) l_max (lLogPhase logfac linreal l_max 2).2).1 ch1 hl1 ch2
  have hlB2 : (2 :: ((lLogPhase logfac linreal l_max 2).1 ++
      (lLinPhase (cInt linreal) l_max (lLogPhase logfac linreal l_max 2).2).1)).getLastD 0 =
      (lLinPhase (cInt linreal) l_max (lLogPhase logfac linreal l_max 2).2).2 := by
    rw [hlB]
    exact hl2
  have hmain : (transfer_get_l_list_values logfac linreal l_max).head? = some 2 ∧
      List.Chain' (· < ·) (transfer_get_l_list_values logfac linreal l_max) ∧
      (transfer_get_l_list_values logfac linreal l_max).getLastD 0 = l_max := by
    unfold transfer_get_l_list_values
    by_cases hne : (lLinPhase (cInt linreal) l_max (lLogPhase logfac linreal l_max 2).2).2 ≠ l_max
    · rw [if_pos hne]
      have hlt : (lLinPhase (cInt linreal) l_max (lLogPhase logfac linreal l_max 2).2).2 <
          l_max := lt_of_le_of_ne hle2 hne
      have hsnoc := chain_append_last 2
        (lLinPhase (cInt linreal) l_max (lLogPhase logfac linreal l_max 2).2).2
        ((lLogPhase logfac linreal l_max 2).1 ++
          (lLinPhase (cInt linreal) l_max (lLogPhase logfac linreal l_max 2).2).1)
        [l_max] chB hlB2 (List.chain'_cons.mpr ⟨hlt, List.chain'_singleton _⟩)
      refine ⟨by simp, ?_, ?_⟩
      · simp only [List.cons_append]
        exact hsnoc.1
      · have h4 := hsnoc.2
        simp only [List.getLastD_cons, List.getLastD_nil] at h4
        simp only [List.cons_append, List.getLastD_cons]
        exact h4
    · rw [if_neg hne]
      push_neg at hne
      exact ⟨by simp, chB, by rw [hlB2, hne]⟩
  refine ⟨hmain.1, hmain.2.1, hmain.2.2, ?_⟩
  intro tlm
  have hlast := hmain.2.2
  have hnil : transfer_get_l_list_values logfac linreal l_max ≠ [] := by
    intro hcon
    rw [hcon] at hlast
    simp at hlast
    omega
  constructor
  · unfold transfer_l_size_tt
    by_cases hgt : tlm > (transfer_get_l_list_values logfac linreal l_max).getLastD 0
    · rw [if_pos hgt]
      simp only [true_iff]
      rw [hlast] at hgt
      exact hgt
    · rw [if_neg hgt]
      simp only [reduceCtorEq, false_iff, not_lt]
      rw [hlast] at hgt
      omega
  · intro s hs
    unfold transfer_l_size_tt at hs
    by_cases hgt : tlm > (transfer_get_l_list_values logfac linreal l_max).getLastD 0
    · rw [if_pos hgt] at hs
      exact absurd hs (by simp)
    · rw [if_neg hgt] at hs
      simp only [Except.ok.injEq] at hs
      have hmem : (transfer_get_l_list_values logfac linreal l_max).getLastD 0 ∈
          transfer_get_l_list_values logfac linreal l_max := by
        rw [List.getLastD_eq_getLast?]
        rcases List.exists_mem_of_ne_nil _ hnil with ⟨x, hx⟩
        rw [List.getLast?_eq_getLast _ hnil]
        simp only [Option.getD_some]
        exact List.getLast_mem hnil
      have hfind : (transfer_get_l_list_values logfac linreal l_max).findIdx
          (fun x => tlm ≤ x) < (transfer_get_l_list_values logfac linreal l_max).length := by
        apply List.findIdx_lt_length_of_exists
        refine ⟨(transfer_get_l_list_values logfac linreal l_max).getLastD 0, hmem, ?_⟩
        simp only [decide_eq_true_eq]
        omega
      subst hs
      split_ifs <;> omega


lemma getLastD_irrel {α : Type} (l : List α) (a b : α) (h : l ≠ []) :
    l.getLastD a = l.getLastD b := by
  cases l with
  | nil => exact absurd rfl h
  | cons x t => rw [List.getLastD_cons, List.getLastD_cons]

lemma getLastD_mem {α : Type} (l : List α) (d : α) (h : l ≠ []) :
    l.getLastD d ∈ l := by
  rw [List.getLastD_eq_getLast?, List.getLast?_eq_getLast _ h]
  exact List.getLast_mem h

lemma headD_dropLast {α : Type} (l : List α) (d : α) (h : 2 ≤ l.length) :
    l.dropLast.headD d = l.headD d := by
  cases l with
  | nil => simp at h
  | cons x t =>
    cases t with
    | nil => simp at h
    | cons y u => rfl

lemma qLoop_exit_spec (p : QListParams) (st : QState) (hne : st.rev ≠ [])
    (htail : ∀ x ∈ st.rev.tail, x < p.q_max) (hh : ¬ st.rev.headD 0 < p.q_max) :
    (∀ x ∈ st.rev.reverse.dropLast, x < p.q_max) ∧
    p.q_max ≤ st.rev.reverse.getLastD 0 ∧ st.rev.reverse ≠ [] ∧
    st.rev.reverse.headD 0 = st.rev.getLastD 0 ∧
    st.rev.length ≤ st.rev.reverse.length := by
  obtain ⟨h0, t, ht⟩ := List.exists_cons_of_ne_nil hne
  rw [ht] at htail hh ⊢
  simp only [List.reverse_cons, List.tail_cons] at htail ⊢
  refine ⟨?_, ?_, by simp, ?_, by simp⟩
  · rw [List.dropLast_concat]
    intro x hx
    exact htail x ((List.mem_reverse).mp hx)
  · have he : (t.reverse ++ [h0]).getLastD 0 = h0 := by
      rw [List.getLastD_eq_getLast?, List.getLast?_concat]
      rfl
    rw [he]
    simpa using not_lt.mp hh
  · rw [List.headD_eq_head?_getD, ← List.reverse_cons, List.head?_reverse,
      List.getLastD_eq_getLast?]

lemma qLoop_ok_spec (p : QListParams) :
    ∀ (fuel : ℕ) (st : QState) (L : List ℚ), st.rev ≠ [] →
      (∀ x ∈ st.rev.tail, x < p.q_max) → qLoop p fuel st = .ok L →
      (∀ x ∈ L.dropLast, x < p.q_max) ∧ p.q_max ≤ L.getLastD 0 ∧ L ≠ [] ∧
      L.headD 0 = st.rev.getLastD 0 ∧ st.rev.length ≤ L.length := by
  intro fuel
  induction fuel with
  | zero =>
    intro st L hne htail hok
    rw [qLoop] at hok
    by_cases hh : st.rev.headD 0 < p.q_max
    · rw [if_pos hh] at hok
      exact absurd hok (by simp)
    · rw [if_neg hh] at hok
      simp only [Except.ok.injEq] at hok
      subst hok
      exact qLoop_exit_spec p st hne htail hh
  | succ n ih =>
    intro st L hne htail hok
    rw [qLoop] at hok
    by_cases hh : st.rev.headD 0 < p.q_max
    · rw [if_pos hh] at hok
      have hall : ∀ x ∈ st.rev, x < p.q_max := by
        obtain ⟨h0, t, ht⟩ := List.exists_cons_of_ne_nil hne
        intro x hx
        rw [ht] at hx
        rcases List.mem_cons.mp hx with h | h
        · subst h
          rw [ht] at hh
          simpa using hh
        · exact htail x (by rw [ht]; exact h)
      have hstep : ∀ (q : ℚ) (nu : ℤ) (ls : ℚ) (li : ℤ),
          qLoop p n ⟨q :: st.rev, nu, ls, li⟩ = .ok L →
          (∀ x ∈ L.dropLast, x < p.q_max) ∧ p.q_max ≤ L.getLastD 0 ∧ L ≠ [] ∧
          L.headD 0 = st.rev.getLastD 0 ∧ st.rev.length ≤ L.length := by
        intro q nu ls li hok2
        have hres := ih ⟨q :: st.rev, nu, ls, li⟩ L (by simp)
          (by simpa using hall) hok2
        obtain ⟨c1, c2, c3, c4, c5⟩ := hres
        refine ⟨c1, c2, c3, ?_, ?_⟩
        · rw [c4]
          show (q :: st.rev).getLastD 0 = st.rev.getLastD 0
          rw [List.getLastD_cons]
          exact getLastD_irrel st.rev q 0 hne
        · simp only [List.length_cons] at c5
          omega
      dsimp only at hok
      by_cases hs : p.sgnK ≤ 0
      · rw [if_pos hs] at hok
        exact hstep _ _ _ _ hok
      · rw [if_neg hs] at hok
        by_cases hnu : st.nu < cInt p.hyper_flat_approximation_nu
        · rw [if_pos hnu] at hok
          exact hstep _ _ _ _ hok
        · rw [if_neg hnu] at hok
          exact hstep _ _ _ _ hok
    · rw [if_neg hh] at hok
      simp only [Except.ok.injEq] at hok
      subst hok
      exact qLoop_exit_spec p st hne htail hh


lemma qLoop_zero_step (p : QListParams) (q0 : ℚ) (hsgn : p.sgnK ≤ 0)
    (hq : q0 < p.q_max) (hstep : qStepFlat p q0 = 0) :
    ∀ (fuel : ℕ) (st : QState), st.rev.headD 0 = q0 →
      qLoop p fuel st = .error "buggy q-list definition" := by
  intro fuel
  induction fuel with
  | zero =>
    intro st hh
    rw [qLoop, if_pos (by rw [hh]; exact hq)]
  | succ n ih =>
    intro st hh
    rw [qLoop, if_pos (by rw [hh]; exact hq)]
    dsimp only
    rw [if_pos hsgn]
    apply ih
    simp only [List.headD_cons]
    rw [hh, hstep, add_zero]

/-- C4 (witness): the multipole-grid properties at `logfac = 3/2`,
`linreal = 5`, `l_max = 20`. -/
theorem claim_C4_witness :
    (transfer_get_l_list_values (3/2) 5 20).head? = some 2 ∧
    List.Chain' (· < ·) (transfer_get_l_list_values (3/2) 5 20) ∧
    (transfer_get_l_list_values (3/2) 5 20).getLastD 0 = 20 ∧
    (∀ tlm : ℤ,
      (transfer_l_size_tt (transfer_get_l_list_values (3/2) 5 20) tlm =
          Except.error "l_max greater than in Bessel table" ↔ 20 < tlm) ∧
      (∀ s, transfer_l_size_tt (transfer_get_l_list_values (3/2) 5 20) tlm =
          Except.ok s → s ≤ (transfer_get_l_list_values (3/2) 5 20).length)) :=
  claim_C4 (3/2) 5 20 (by norm_num) (by norm_num [cInt])

/-- C5 (witness): the amended bounds statement exercised at the open-space
instance `K = -1`, upstream bounds `[5/4, 5]`, tensors requested. -/
theorem claim_C5_witness :
    (0:ℝ) ≤ 5/4 * (5/4) + (-1) ∧
    (transfer_q_bounds (-1) (-1) (5/4) 5 false true).1 ^ 2 = 5/4 * (5/4) + (-1) ∧
    (transfer_q_bounds (-1) (-1) (5/4) 5 false true).2 ≤
      Real.sqrt (5 * 5 + 3 * (-1)) :=
  ⟨by norm_num, (claim_C5 (-1) (5/4) 5 false true).2.2.2.2.1 (by norm_num),
    (claim_C5 (-1) (5/4) 5 false true).2.2.2.2.2.1 rfl⟩

/-- C6: the q-filling loop of `transfer_get_q_list` terminates as soon as the
last generated value reaches or exceeds `q_max`; a strict overshoot is
dropped (never snapped to `q_max`), leaving a list whose leading entries are
all `< q_max` and whose last entry is `≤ q_max`; the construction fails
fatally when fewer than two points result, and a step evaluating to exactly
zero makes the loop exhaust its capacity and fail fatally. -/
theorem claim_C6 (p : QListParams) (q_min : ℚ) (q_size_max : ℕ) :
    (∀ L, transfer_get_q_list_model p q_min q_size_max = .ok L →
      2 ≤ L.length ∧ L.headD 0 = q_min ∧ (∀ x ∈ L.dropLast, x < p.q_max) ∧
      L.getLastD 0 ≤ p.q_max) ∧
    (∀ Lraw, qLoop p (q_size_max - 1) ⟨[q_min], 3, 0, 0⟩ = .ok Lraw →
      p.q_max < Lraw.getLastD 0 →
      transfer_get_q_list_model p q_min q_size_max =
        (if Lraw.dropLast.length < 2 then Except.error "buggy q-list definition"
          else Except.ok Lraw.dropLast)) ∧
    (p.sgnK ≤ 0 → q_min < p.q_max → qStepFlat p q_min = 0 →
      transfer_get_q_list_model p q_min q_size_max =
        .error "buggy q-list definition") := by
  refine ⟨?_, ?_, ?_⟩
  · intro L hok
    unfold transfer_get_q_list_model at hok
    cases hq : qLoop p (q_size_max - 1) ⟨[q_min], 3, 0, 0⟩ with
    | error e =>
      rw [hq] at hok
      exact absurd hok (by simp)
    | ok Lraw =>
      rw [hq] at hok
      dsimp only at hok
      obtain ⟨c1, c2, c3, c4, c5⟩ := qLoop_ok_spec p _ _ _ (by simp) (by simp) hq
      have hc4 : Lraw.headD 0 = q_min := by simpa using c4
      by_cases hd : Lraw.getLastD 0 > p.q_max
      · rw [if_pos hd] at hok
        by_cases hlen : Lraw.dropLast.length < 2
        · rw [if_pos hlen] at hok
          exact absurd hok (by simp)
        · rw [if_neg hlen] at hok
          simp only [Except.ok.injEq] at hok
          subst hok
          have hlr : 3 ≤ Lraw.length := by
            have := Lraw.length_dropLast
            omega
          refine ⟨by omega, ?_, ?_, ?_⟩
          · rw [headD_dropLast Lraw 0 (by omega)]
            exact hc4
          · intro x hx
            exact c1 x (List.dropLast_subset _ hx)
          · have hne2 : Lraw.dropLast ≠ [] := by
              intro hcon
              rw [hcon] at hlen
              simp at hlen
            exact le_of_lt (c1 _ (getLastD_mem Lraw.dropLast 0 hne2))
      · rw [if_neg hd] at hok
        by_cases hlen : Lraw.length < 2
        · rw [if_pos hlen] at hok
          exact absurd hok (by simp)
        · rw [if_neg hlen] at hok
          simp only [Except.ok.injEq] at hok
          subst hok
          exact ⟨by omega, hc4, c1, not_lt.mp hd⟩
  · intro Lraw hq hgt
    unfold transfer_get_q_list_model
    rw [hq]
    dsimp only
    rw [if_pos hgt]
  · intro hs hqlt hz
    unfold transfer_get_q_list_model
    rw [qLoop_zero_step p q_min hs hqlt hz _ _ (by simp)]

/-- C6 (witness): with the flat example parameters, `q_min = 1`,
`q_max = 2` and capacity 10, the loop generates `[1, 3/2, 21/10]`, drops the
overshooting `21/10`, and the resulting grid `[1, 3/2]` satisfies the ok-case
properties. -/
theorem claim_C6_witness :
    2 ≤ ([1, 3/2] : List ℚ).length ∧ ([1, 3/2] : List ℚ).headD 0 = 1 ∧
    (∀ x ∈ ([1, 3/2] : List ℚ).dropLast, x < qParamsFlatEx.q_max) ∧
    ([1, 3/2] : List ℚ).getLastD 0 ≤ qParamsFlatEx.q_max := by
  have hloop : qLoop qParamsFlatEx 9 ⟨[1], 3, 0, 0⟩ = .ok [1, 3/2, 21/10] := by
    rw [qLoop.eq_def]
    norm_num [qStepFlat, qParamsFlatEx]
    rw [qLoop.eq_def]
    norm_num [qStepFlat, qParamsFlatEx]
    rw [qLoop.eq_def]
    norm_num [qStepFlat, qParamsFlatEx]
  have hok : transfer_get_q_list_model qParamsFlatEx 1 10 = .ok [1, 3/2] := by
    unfold transfer_get_q_list_model
    rw [show (10 - 1 : ℕ) = 9 from rfl, hloop]
    norm_num [qParamsFlatEx]
  exact (claim_C6 qParamsFlatEx 1 10).1 [1, 3/2] hok

lemma lastNonzero_self (s : ℕ → ℚ) (n : ℕ) (h : s n ≠ 0) :
    lastNonzero s n = some n := by
  cases n with
  | zero =>
    unfold lastNonzero
    rw [if_neg h]
  | succ m =>
    unfold lastNonzero
    rw [if_neg h]

lemma lastGEOpt_self (f : ℕ → ℚ) (c : ℚ) (n : ℕ) (h : ¬ f n < c) :
    lastGEOpt f c n = some n := by
  cases n with
  | zero =>
    unfold lastGEOpt
    rw [if_neg h]
  | succ m =>
    unfold lastGEOpt
    rw [if_neg h]

/-- C2: `transfer_integrate` returns exactly 0 when the kernel's first
non-negligible time-coordinate is at or beyond the largest available source
sample; a single-sample (Dirac) source skips quadrature and returns
`source·kernel` at that point; and after the trapezoidal convolution the
excess triangular area is subtracted exactly when the time range was
truncated by the kernel's validity bound (`iB < tau_size - 1`) and neither
the source-vanishing scan nor the late-time cut moved the final index away
from the Bessel index. -/
theorem claim_C2 (tau_size : ℕ) (tau0_minus_tau sources w_trapz radial : ℕ → ℚ)
    (minB : ℚ) (neglect : Bool) (cut : ℚ) :
    (minB ≥ tau0_minus_tau 0 →
      transfer_integrate_model tau_size tau0_minus_tau sources w_trapz radial
        minB neglect cut = 0) ∧
    (¬ minB ≥ tau0_minus_tau 0 → tau_size = 1 →
      transfer_integrate_model tau_size tau0_minus_tau sources w_trapz radial
        minB neglect cut = sources 0 * radial 0) ∧
    (¬ minB ≥ tau0_minus_tau 0 → tau_size ≠ 1 →
      lastNonzero sources (lastGE tau0_minus_tau minB (tau_size - 1)) = none →
      transfer_integrate_model tau_size tau0_minus_tau sources w_trapz radial
        minB neglect cut = 0) ∧
    (∀ i1, ¬ minB ≥ tau0_minus_tau 0 → tau_size ≠ 1 →
      lastNonzero sources (lastGE tau0_minus_tau minB (tau_size - 1)) = some i1 →
      neglect = true → lastGEOpt tau0_minus_tau cut i1 = none →
      transfer_integrate_model tau_size tau0_minus_tau sources w_trapz radial
        minB neglect cut = 0) ∧
    (¬ minB ≥ tau0_minus_tau 0 → tau_size ≠ 1 →
      lastGE tau0_minus_tau minB (tau_size - 1) ≠ tau_size - 1 →
      sources (lastGE tau0_minus_tau minB (tau_size - 1)) ≠ 0 →
      (neglect = true →
        ¬ tau0_minus_tau (lastGE tau0_minus_tau minB (tau_size - 1)) < cut) →
      transfer_integrate_model tau_size tau0_minus_tau sources w_trapz radial
        minB neglect cut =
        array_trapezoidal_convolution sources radial
          (lastGE tau0_minus_tau minB (tau_size - 1) + 1) w_trapz -
        1/2 * (tau0_minus_tau (lastGE tau0_minus_tau minB (tau_size - 1) + 1) -
          minB) * radial (lastGE tau0_minus_tau minB (tau_size - 1)) *
          sources (lastGE tau0_minus_tau minB (tau_size - 1))) ∧
    (∀ i1 i2, ¬ minB ≥ tau0_minus_tau 0 → tau_size ≠ 1 →
      lastNonzero sources (lastGE tau0_minus_tau minB (tau_size - 1)) = some i1 →
      (if neglect then lastGEOpt tau0_minus_tau cut i1 else some i1) = some i2 →
      (i2 ≠ lastGE tau0_minus_tau minB (tau_size - 1) ∨ i2 = tau_size - 1) →
      transfer_integrate_model tau_size tau0_minus_tau sources w_trapz radial
        minB neglect cut =
        array_trapezoidal_convolution sources radial (i2 + 1) w_trapz) := by
  refine ⟨?_, ?_, ?_, ?_, ?_, ?_⟩
  · intro h
    unfold transfer_integrate_model
    rw [if_pos h]
  · intro h h1
    unfold transfer_integrate_model
    rw [if_neg h, if_pos h1]
  · intro h h1 hnone
    unfold transfer_integrate_model
    rw [if_neg h, if_neg h1]
    dsimp only
    rw [hnone]
  · intro i1 h h1 hsome hne hnone
    unfold transfer_integrate_model
    rw [if_neg h, if_neg h1]
    dsimp only
    rw [hsome, hne]
    dsimp only
    rw [if_pos rfl, hnone]
  · intro h h1 hBne hsne hcut
    unfold transfer_integrate_model
    rw [if_neg h, if_neg h1]
    dsimp only
    rw [lastNonzero_self _ _ hsne]
    dsimp only
    have hfilter : (if neglect then
        lastGEOpt tau0_minus_tau cut (lastGE tau0_minus_tau minB (tau_size - 1))
        else some (lastGE tau0_minus_tau minB (tau_size - 1))) =
        some (lastGE tau0_minus_tau minB (tau_size - 1)) := by
      cases neglect with
      | false => rfl
      | true => exact lastGEOpt_self _ _ _ (hcut rfl)
    rw [hfilter]
    dsimp only
    rw [if_pos ⟨hBne, rfl⟩]
  · intro i1 i2 h h1 hsome hfilter hcond
    unfold transfer_integrate_model
    rw [if_neg h, if_neg h1]
    dsimp only
    rw [hsome]
    dsimp only
    rw [hfilter]
    dsimp only
    rw [if_neg ?_]
    intro hcon
    rcases hcond with hc | hc
    · exact hc hcon.2
    · exact hcon.1 hc

/-- C2 (witness): three samples `tau0-tau = (3,2,1)`, unit source, weights
and kernel, kernel bound `minB = 3/2`: the Bessel scan stops at index 1
(Bessel truncation), the source does not vanish there, and the result is the
two-term convolution minus the correction triangle; the claim theorem's zero
and Dirac conjuncts are instantiated alongside. -/
theorem claim_C2_witness :
    transfer_integrate_model 3 (fun i : ℕ => (3 - (i:ℚ))) (fun _ => 1)
      (fun _ => 1) (fun _ => 1) (3/2) false 0 = 9/4 ∧
    transfer_integrate_model 1 (fun _ => (1:ℚ)) (fun _ => 2) (fun _ => 1)
      (fun _ => 5) 3 false 0 = 0 ∧
    transfer_integrate_model 1 (fun _ => (1:ℚ)) (fun _ => 2) (fun _ => 1)
      (fun _ => 5) (1/2) false 0 = 2 * 5 := by
  refine ⟨?_, ?_, ?_⟩
  · have hB : lastGE (fun i : ℕ => (3 - (i:ℚ))) (3/2) (3 - 1) = 1 := by
      norm_num [lastGE]
    rw [(claim_C2 3 (fun i : ℕ => (3 - (i:ℚ))) (fun _ => 1) (fun _ => 1)
      (fun _ => 1) (3/2) false 0).2.2.2.2.1 (by norm_num) (by norm_num)
      (by rw [hB]; norm_num) (by norm_num) (fun hcon => by simp at hcon)]
    rw [hB]
    norm_num [array_trapezoidal_convolution, Finset.sum_range_succ]
  · exact (claim_C2 1 (fun _ => (1:ℚ)) (fun _ => 2) (fun _ => 1) (fun _ => 5)
      3 false 0).1 (by norm_num)
  · exact (claim_C2 1 (fun _ => (1:ℚ)) (fun _ => 2) (fun _ => 1) (fun _ => 5)
      (1/2) false 0).2.1 (by norm_num) rfl

lemma limberBracket_spec (tau : ℕ → ℚ) (nm2 : ℕ) (t : ℚ) :
    ∀ (n : ℕ) (i : ℕ), nm2 - i ≤ n → i ≤ nm2 →
      i ≤ limberBracket tau nm2 t i ∧ limberBracket tau nm2 t i ≤ nm2 ∧
      (limberBracket tau nm2 t i < nm2 → ¬ tau (limberBracket tau nm2 t i) > t) ∧
      (∀ j, i ≤ j → j < limberBracket tau nm2 t i → tau j > t) := by
  intro n
  induction n with
  | zero =>
    intro i hn hi
    have hieq : i = nm2 := by omega
    have hg : ¬ (tau i > t ∧ i < nm2) := by
      intro hcon
      omega
    rw [limberBracket, dif_neg hg]
    exact ⟨le_refl _, hi, fun hcon => absurd hieq (by omega), fun j h1 h2 => by omega⟩
  | succ n ih =>
    intro i hn hi
    by_cases hg : tau i > t ∧ i < nm2
    · rw [limberBracket, dif_pos hg]
      obtain ⟨c1, c2, c3, c4⟩ := ih (i + 1) (by omega) (by omega)
      refine ⟨by omega, c2, c3, ?_⟩
      intro j h1 h2
      by_cases hj : j = i
      · subst hj
        exact hg.1
      · exact c4 j (by omega) h2
    · rw [limberBracket, dif_neg hg]
      refine ⟨le_refl _, hi, ?_, fun j h1 h2 => by omega⟩
      intro hlt
      intro hcon
      exact hg ⟨hcon, hlt⟩

/-- C3: `transfer_limber` computes `tau0-tau = (l+1/2)/k`, returns exactly 0
when that value lies strictly outside the stored sample range, and otherwise
locates a genuine bracketing triple of samples (the target lies between the
outer two) and returns `sqrt(π/(2l+1))` times the quadratic fit of
`source·(tau0-tau)` divided by `(l+1/2)`; the fit function is the exact
quadratic interpolant through its three nodes. -/
theorem claim_C3 (tau_size : ℕ) (tau s : ℕ → ℚ) (l k : ℚ)
    (hmono : ∀ j, j + 1 < tau_size → tau (j + 1) ≤ tau j)
    (hn : 3 ≤ tau_size) :
    ((l + 1/2)/k > tau 0 ∨ (l + 1/2)/k < tau (tau_size - 1) →
      transfer_limber_model tau_size tau s l k = 0) ∧
    (¬ ((l + 1/2)/k > tau 0 ∨ (l + 1/2)/k < tau (tau_size - 1)) →
      1 ≤ limberBracket tau (tau_size - 2) ((l + 1/2)/k) 1 ∧
      limberBracket tau (tau_size - 2) ((l + 1/2)/k) 1 ≤ tau_size - 2 ∧
      tau (limberBracket tau (tau_size - 2) ((l + 1/2)/k) 1 + 1) ≤ (l + 1/2)/k ∧
      (l + 1/2)/k ≤ tau (limberBracket tau (tau_size - 2) ((l + 1/2)/k) 1 - 1) ∧
      transfer_limber_model tau_size tau s l k =
        Real.sqrt (Real.pi / (2 * l + 1)) *
          (transfer_limber_S tau_size tau s ((l + 1/2)/k) : ℝ) / ((l : ℝ) + 1/2)) ∧
    (∀ x1 x2 x3 y1 y2 y3 : ℚ, x1 ≠ x2 → x1 ≠ x3 → x2 ≠ x3 →
      array_interpolate_parabola_S x1 x2 x3 x1 y1 y2 y3 = y1 ∧
      array_interpolate_parabola_S x1 x2 x3 x2 y1 y2 y3 = y2 ∧
      array_interpolate_parabola_S x1 x2 x3 x3 y1 y2 y3 = y3) := by
  refine ⟨?_, ?_, ?_⟩
  · intro h
    unfold transfer_limber_model
    dsimp only
    rw [if_pos h]
  · intro h
    obtain ⟨c1, c2, c3, c4⟩ := limberBracket_spec tau (tau_size - 2) ((l + 1/2)/k)
      (tau_size - 2 - 1) 1 (by omega) (by omega)
    push_neg at h
    refine ⟨c1, c2, ?_, ?_, ?_⟩
    · by_cases hi : limberBracket tau (tau_size - 2) ((l + 1/2)/k) 1 < tau_size - 2
      · have hstop := c3 hi
        push_neg at hstop
        exact le_trans (hmono _ (by omega)) hstop
      · have hieq : limberBracket tau (tau_size - 2) ((l + 1/2)/k) 1 = tau_size - 2 := by
          omega
        rw [hieq, show tau_size - 2 + 1 = tau_size - 1 by omega]
        exact h.2
    · by_cases hi : 1 = limberBracket tau (tau_size - 2) ((l + 1/2)/k) 1
      · rw [← hi]
        simpa using h.1
      · exact le_of_lt (c4 _ (by omega) (by omega))
    · unfold transfer_limber_model
      dsimp only
      rw [if_neg (by push_neg; exact h)]
  · intro x1 x2 x3 y1 y2 y3 h12 h13 h23
    have d12 : x1 - x2 ≠ 0 := sub_ne_zero.mpr h12
    have d13 : x1 - x3 ≠ 0 := sub_ne_zero.mpr h13
    have d23 : x2 - x3 ≠ 0 := sub_ne_zero.mpr h23
    have d21 : x2 - x1 ≠ 0 := sub_ne_zero.mpr (Ne.symm h12)
    have d31 : x3 - x1 ≠ 0 := sub_ne_zero.mpr (Ne.symm h13)
    have d32 : x3 - x2 ≠ 0 := sub_ne_zero.mpr (Ne.symm h23)
    refine ⟨?_, ?_, ?_⟩ <;>
      · unfold array_interpolate_parabola_S
        field_simp
        ring

/-- C3 (witness): samples `tau0-tau = (8,6,4,2)`, unit source, `l = 9/2`,
`k = 1` (Limber time-coordinate 5, inside the range): the transfer value is
`sqrt(π/10)·(19/4)/5` via the located bracket and quadratic fit, and the fit
reproduces a node value at a concrete triple. -/
theorem claim_C3_witness :
    transfer_limber_model 4 (fun i : ℕ => (8 - 2*(i:ℚ))) (fun _ => 1) (9/2) 1 =
      Real.sqrt (Real.pi / 10) * ((19/4 : ℚ) : ℝ) / 5 ∧
    array_interpolate_parabola_S 0 1 2 0 3 4 5 = 3 := by
  constructor
  · have H := (claim_C3 4 (fun i : ℕ => (8 - 2*(i:ℚ))) (fun _ => 1) (9/2) 1
      (by
        intro j hj
        have hj3 : j < 3 := by omega
        interval_cases j <;> push_cast <;> norm_num)
      (by norm_num)).2.1 (by push_cast; norm_num)
    rw [H.2.2.2.2]
    have hB : limberBracket (fun i : ℕ => (8 - 2*(i:ℚ))) (4 - 2)
        (((9:ℚ)/2 + 1/2)/1) 1 = 2 := by
      rw [limberBracket, dif_pos (by push_cast; norm_num)]
      rw [limberBracket, dif_neg (by push_cast; norm_num)]
    have hS : transfer_limber_S 4 (fun i : ℕ => (8 - 2*(i:ℚ))) (fun _ => 1)
        (((9:ℚ)/2 + 1/2)/1) = 19/4 := by
      unfold transfer_limber_S
      rw [hB]
      norm_num [array_interpolate_parabola_S]
    rw [hS]
    push_cast
    norm_num
  · exact ((claim_C3 4 (fun i : ℕ => (8 - 2*(i:ℚ))) (fun _ => 1) (9/2) 1
      (by
        intro j hj
        have hj3 : j < 3 := by omega
        interval_cases j <;> push_cast <;> norm_num)
      (by norm_num)).2.2 0 1 2 3 4 5 (by norm_num) (by norm_num) (by norm_num)).1

/-- C8: `transfer_get_k_list` derives `k(q) = sqrt(q² − K(m+1))` with spin
`m = 0, 1, 2` for scalar, vector, tensor modes, and on success (the endpoint
`class_test`s passed) every derived `k` over a nonnegative increasing q-grid
lies within the upstream source's k bounds, so source interpolation never
extrapolates. -/
theorem claim_C8 (K m : ℝ) (q_size : ℕ) (q : ℕ → ℝ) (k_min k_max : ℝ)
    (k : ℕ → ℝ) (hsz : 1 ≤ q_size)
    (hmono : ∀ i j, i < j → j < q_size → q i ≤ q j)
    (hpos : ∀ i, i < q_size → 0 ≤ q i)
    (hok : transfer_get_k_list_mode K m q_size q k_min k_max = .ok k) :
    (∀ i, k i = Real.sqrt (q i * q i - K * (m + 1))) ∧
    (∀ i, i < q_size → k_min ≤ k i ∧ k i ≤ k_max) ∧
    modeSpin PerturbMode.scalars = 0 ∧ modeSpin PerturbMode.vectors = 1 ∧
    modeSpin PerturbMode.tensors = 2 := by
  unfold transfer_get_k_list_mode at hok
  dsimp only at hok
  by_cases h1 : transfer_k_of_q K m (q 0) < k_min
  · rw [if_pos h1] at hok
    exact absurd hok (by simp)
  · rw [if_neg h1] at hok
    by_cases h2 : transfer_k_of_q K m (q (q_size - 1)) > k_max
    · rw [if_pos h2] at hok
      exact absurd hok (by simp)
    · rw [if_neg h2] at hok
      simp only [Except.ok.injEq] at hok
      subst hok
      refine ⟨fun i => rfl, ?_, rfl, rfl, rfl⟩
      have hle : ∀ a b, a ≤ b → b < q_size →
          transfer_k_of_q K m (q a) ≤ transfer_k_of_q K m (q b) := by
        intro a b hab hb
        rcases eq_or_lt_of_le hab with he | hl
        · rw [he]
        · unfold transfer_k_of_q
          apply Real.sqrt_le_sqrt
          have hqa : 0 ≤ q a := hpos a (lt_trans hl hb)
          have hq : q a ≤ q b := hmono a b hl hb
          nlinarith
      intro i hi
      constructor
      · exact le_trans (not_lt.mp h1) (hle 0 i (Nat.zero_le i) hi)
      · exact le_trans (hle i (q_size - 1) (by omega) (by omega)) (not_lt.mp h2)

/-- C8 (witness): flat space (`K = 0`), scalar spin, two grid points
`q = (1, 2)`, upstream bounds `[1, 2]`: the check passes and every derived k
is within bounds. -/
theorem claim_C8_witness :
    (∀ i : ℕ, (fun j : ℕ =>
        transfer_k_of_q 0 0 (if j = 0 then (1:ℝ) else 2)) i =
      Real.sqrt ((if i = 0 then (1:ℝ) else 2) * (if i = 0 then (1:ℝ) else 2) -
        0 * (0 + 1))) ∧
    (∀ i : ℕ, i < 2 →
      1 ≤ (fun j : ℕ => transfer_k_of_q 0 0 (if j = 0 then (1:ℝ) else 2)) i ∧
      (fun j : ℕ => transfer_k_of_q 0 0 (if j = 0 then (1:ℝ) else 2)) i ≤ 2) ∧
    modeSpin PerturbMode.scalars = 0 ∧ modeSpin PerturbMode.vectors = 1 ∧
    modeSpin PerturbMode.tensors = 2 := by
  have e0 : transfer_k_of_q 0 0 (if (0:ℕ) = 0 then (1:ℝ) else 2) = 1 := by
    norm_num [transfer_k_of_q]
  have e1 : transfer_k_of_q 0 0 (if (1:ℕ) = 0 then (1:ℝ) else 2) = 2 := by
    norm_num [transfer_k_of_q]
    rw [show (4:ℝ) = 2^2 by norm_num, Real.sqrt_sq (by norm_num : (0:ℝ) ≤ 2)]
  refine claim_C8 0 0 2 (fun j : ℕ => if j = 0 then (1:ℝ) else 2) 1 2
    (fun j : ℕ => transfer_k_of_q 0 0 (if j = 0 then (1:ℝ) else 2))
    (by norm_num) ?_ ?_ ?_
  · intro i j hij hj
    have : i = 0 ∧ j = 1 := by omega
    rw [this.1, this.2]
    norm_num
  · intro i hi
    by_cases h : i = 0 <;> simp [h] <;> norm_num
  · unfold transfer_get_k_list_mode
    dsimp only
    rw [if_neg (by rw [e0]; norm_num)]
    rw [if_neg (by rw [e1]; norm_num)]

end HiClassTransfer
